import Mathlib

/-!
# Verification of the sgfixedincome allocation core

Shallow embedding of `sgfixedincome_pkg/equations.py` and the allocation
optimizer `get_optimal_allocation` of `sgfixedincome_pkg/analysis.py`,
together with proofs and refutations of the specification claims.

Python floats are modelled as real numbers; the catalogue data (rates,
deposit bounds, monetary amounts, solver outputs) is modelled with
rational numbers so that concrete instances evaluate, and is cast to `ℝ`
exactly where the source feeds it into the compounding formula.
-/

namespace SgFixedIncome

/-! ## equations.py -/

/-- `calculate_dollar_return(investment, rate, tenure)`:
`investment * ((1 + rate / 100) ** (tenure / 12) - 1)`.
The Python body performs no input validation; it is a single total
arithmetic expression, modelled one-to-one. -/
noncomputable def calculate_dollar_return (investment rate : ℝ) (tenure : ℕ) : ℝ :=
  investment * ((1 + rate / 100) ^ ((tenure : ℝ) / 12) - 1)

/-- `calculate_per_annum_rate(total_percentage_return, tenure)`:
`((total_percentage_return / 100 + 1) ** (12 / tenure) - 1) * 100`.
No input validation in the source. -/
noncomputable def calculate_per_annum_rate (total_percentage_return : ℝ) (tenure : ℕ) : ℝ :=
  ((total_percentage_return / 100 + 1) ^ ((12 : ℝ) / (tenure : ℝ)) - 1) * 100

/-! ## analysis.py — `get_optimal_allocation`

One row of the normalized catalogue DataFrame (columns `Product provider`,
`Product`, `Tenure`, `Rate`, `Deposit lower bound`, `Deposit upper bound`,
`Required multiples`; a NaN in `Required multiples` is `none`). -/

structure InvestmentOption where
  provider : String
  product : String
  tenure : ℕ
  rate : ℚ
  depositLowerBound : ℚ
  depositUpperBound : ℚ
  requiredMultiples : Option ℚ
deriving DecidableEq, Repr

/-- The identifier the code builds with
`f"{provider}_{product}_{lower}_{upper}"`.  Since Python's float
formatting is injective and never prints an underscore, two rows share
that f-string exactly when `provider ++ "_" ++ product` agree as strings
and the two bounds agree as numbers; the identifier is modelled by that
triple. -/
def investmentId (o : InvestmentOption) : String × ℚ × ℚ :=
  (o.provider ++ "_" ++ o.product, o.depositLowerBound, o.depositUpperBound)

/-- `df = df[df['Tenure'] == target_tenure]`. -/
def eligibleOptions (df : List InvestmentOption) (targetTenure : ℕ) :
    List InvestmentOption :=
  df.filter (fun o => o.tenure == targetTenure)

/-- The keys of the `investment_vars` / `range_selection` dicts: one per
distinct identifier. -/
def investmentIds (el : List InvestmentOption) : List (String × ℚ × ℚ) :=
  (el.map investmentId).dedup

/-- `df[['Product provider', 'Product']].drop_duplicates()`. -/
def providerProducts (el : List InvestmentOption) : List (String × String) :=
  (el.map (fun o => (o.provider, o.product))).dedup

/-- The rows of one provider-product group (`relevant_rows`). -/
def groupRows (el : List InvestmentOption) (pp : String × String) :
    List InvestmentOption :=
  el.filter (fun o => o.provider == pp.1 && o.product == pp.2)

/-- `df[df['investment_id'] == inv_id].iloc[0]`: the first row carrying a
given identifier. -/
def firstRowWithId (el : List InvestmentOption) (i : String × ℚ × ℚ) :
    Option InvestmentOption :=
  el.find? (fun o => investmentId o == i)

/-- Upper bound used in the linkage constraint for an identifier. -/
def idUpper (el : List InvestmentOption) (i : String × ℚ × ℚ) : ℚ :=
  ((firstRowWithId el i).map (·.depositUpperBound)).getD 0

/-- Lower bound used in the linkage constraint for an identifier. -/
def idLower (el : List InvestmentOption) (i : String × ℚ × ℚ) : ℚ :=
  ((firstRowWithId el i).map (·.depositLowerBound)).getD 0

/-- Value of a binary `range_selection` variable. -/
def selVal (b : Bool) : ℚ := if b then 1 else 0

/-- The constraint system `get_optimal_allocation` hands to the solver,
for the already tenure-filtered rows `el`: an amount `x i ≥ 0` and a
binary indicator `s i` per distinct identifier `i`, the budget
constraint, the per-group exclusivity constraint (summed once per *row*,
so duplicated identifiers contribute twice), the bound-linkage
constraints (looking bounds up from the first row carrying the
identifier, as the code does), and the required-multiples constraint
(an auxiliary nonnegative integer `k` with `x = k * m`, added only when
the multiple is present and positive). -/
structure Feasible (el : List InvestmentOption) (totalInvestment : ℚ)
    (x : String × ℚ × ℚ → ℚ) (s : String × ℚ × ℚ → Bool) : Prop where
  nonneg : ∀ i ∈ investmentIds el, 0 ≤ x i
  budget : ((investmentIds el).map x).sum ≤ totalInvestment
  groupExclusive : ∀ pp ∈ providerProducts el,
    ((groupRows el pp).map (fun r => selVal (s (investmentId r)))).sum ≤ 1
  upperLink : ∀ pp ∈ providerProducts el, ∀ r ∈ groupRows el pp,
    x (investmentId r) ≤ idUpper el (investmentId r) * selVal (s (investmentId r))
  lowerLink : ∀ pp ∈ providerProducts el, ∀ r ∈ groupRows el pp,
    idLower el (investmentId r) * selVal (s (investmentId r)) ≤ x (investmentId r)
  multiples : ∀ r ∈ el, ∀ m : ℚ, r.requiredMultiples = some m → 0 < m →
    ∃ k : ℕ, x (investmentId r) = (k : ℚ) * m

/-- Objective coefficient `calculate_dollar_return(1, rate, target_tenure)`. -/
noncomputable def perDollarReturn (rate : ℚ) (targetTenure : ℕ) : ℝ :=
  calculate_dollar_return 1 (rate : ℝ) targetTenure

/-- The maximized objective `Σ_rows invest_id_amount * return_per_dollar`
(summed once per row, so duplicated identifiers accumulate). -/
noncomputable def objectiveValue (el : List InvestmentOption) (targetTenure : ℕ)
    (x : String × ℚ × ℚ → ℚ) : ℝ :=
  (el.map (fun r => (x (investmentId r) : ℝ) * perDollarReturn r.rate targetTenure)).sum

/-- A solver outcome the code accepts (`LpStatus == 'Optimal'`):
feasible and objective-maximal. -/
def IsOptimal (el : List InvestmentOption) (totalInvestment : ℚ) (targetTenure : ℕ)
    (x : String × ℚ × ℚ → ℚ) (s : String × ℚ × ℚ → Bool) : Prop :=
  Feasible el totalInvestment x s ∧
    ∀ x₂ s₂, Feasible el totalInvestment x₂ s₂ →
      objectiveValue el targetTenure x₂ ≤ objectiveValue el targetTenure x

/-- The reporting threshold `1e-6`. -/
def tol : ℚ := 1 / 1000000

/-- The rows whose solved amount passes `amount > 1e-6` (the extraction
loop iterates rows, so a duplicated identifier would be reported once per
duplicate row). -/
def allocatedRows (el : List InvestmentOption) (x : String × ℚ × ℚ → ℚ) :
    List InvestmentOption :=
  el.filter (fun r => tol < x (investmentId r))

/-- `round(q, 2)`, rounding to the nearest cent.  (Python rounds exact
half-cent ties to even; no claim depends on tie behaviour.) -/
def round2 (q : ℚ) : ℚ := (round (q * 100) : ℚ) / 100

/-- Real-valued counterpart of `round2` for the reported total return. -/
noncomputable def round2R (v : ℝ) : ℝ := ((round (v * 100) : ℤ) : ℝ) / 100

/-- One row of `allocations_df`.  The `Return` column — the rounded
`calculate_dollar_return(amount, rate, tenure)`, a real — is reported via
`totalReturn` below and not stored here, keeping records decidable. -/
structure AllocationRecord where
  provider : String
  product : String
  allocatedAmount : ℚ
  rate : ℚ
  tenure : ℕ
  depositLowerBound : ℚ
  depositUpperBound : ℚ
deriving DecidableEq, Repr

/-- The `allocation_records` list built by the extraction loop
(`Allocated Amount` is stored rounded to 2 decimal places). -/
def allocationRecords (el : List InvestmentOption) (targetTenure : ℕ)
    (x : String × ℚ × ℚ → ℚ) : List AllocationRecord :=
  (allocatedRows el x).map (fun r =>
    { provider := r.provider
      product := r.product
      allocatedAmount := round2 (x (investmentId r))
      rate := r.rate
      tenure := targetTenure
      depositLowerBound := r.depositLowerBound
      depositUpperBound := r.depositUpperBound })

/-- `total_allocated`: sum of the unrounded solved amounts over the
extraction loop (once per reported row). -/
def totalAllocated (el : List InvestmentOption) (x : String × ℚ × ℚ → ℚ) : ℚ :=
  ((allocatedRows el x).map (fun r => x (investmentId r))).sum

/-- `total_return`: sum of the unrounded per-row dollar returns over the
extraction loop. -/
noncomputable def totalReturn (el : List InvestmentOption) (targetTenure : ℕ)
    (x : String × ℚ × ℚ → ℚ) : ℝ :=
  ((allocatedRows el x).map (fun r =>
    calculate_dollar_return (x (investmentId r) : ℝ) (r.rate : ℝ) targetTenure)).sum

/-- `summary_dict`: the three aggregates, each rounded to 2 d.p. -/
structure AllocationSummary where
  totalReturn : ℝ
  totalAllocated : ℚ
  unallocated : ℚ

/-- Builds `summary_dict` from the solved amounts. -/
noncomputable def mkSummary (el : List InvestmentOption) (targetTenure : ℕ)
    (totalInvestment : ℚ) (x : String × ℚ × ℚ → ℚ) : AllocationSummary :=
  { totalReturn := round2R (totalReturn el targetTenure x)
    totalAllocated := round2 (totalAllocated el x)
    unallocated := round2 (totalInvestment - totalAllocated el x) }

/-- The two `ValueError`s `get_optimal_allocation` can raise. -/
inductive AllocationError where
  /-- "No investment options found for tenure of ... months" -/
  | noEligibleOptions : AllocationError
  /-- "Failed to find optimal solution" -/
  | optimizationFailed : AllocationError
deriving DecidableEq

/-- `get_optimal_allocation(df, total_investment, target_tenure)`,
parameterized by the external MILP solver: filter to the target tenure,
raise if nothing remains, hand the problem to the solver, raise if it
reports no optimum, otherwise extract records and summary. -/
noncomputable def getOptimalAllocation
    (solver : List InvestmentOption → ℚ → ℕ →
      Option ((String × ℚ × ℚ → ℚ) × (String × ℚ × ℚ → Bool)))
    (df : List InvestmentOption) (totalInvestment : ℚ) (targetTenure : ℕ) :
    Except AllocationError (List AllocationRecord × AllocationSummary) :=
  let el := eligibleOptions df targetTenure
  if el.isEmpty then .error .noEligibleOptions
  else
    match solver el totalInvestment targetTenure with
    | none => .error .optimizationFailed
    | some (x, _s) =>
        .ok (allocationRecords el targetTenure x, mkSummary el targetTenure totalInvestment x)

/-! ## Concrete instances used by witnesses and counterexamples

All concrete catalogues use tenure 12 so the compounding exponent is 1
and the per-dollar return equals `rate / 100` exactly. -/

/-- Witness catalogue, row 1: a plain bracket. -/
def wOptA : InvestmentOption :=
  { provider := "BankA", product := "FD A", tenure := 12, rate := 10,
    depositLowerBound := 0, depositUpperBound := 100, requiredMultiples := none }

/-- Witness catalogue, row 2: a bracket with a required multiple of 5. -/
def wOptM : InvestmentOption :=
  { provider := "BankB", product := "FD B", tenure := 12, rate := 10,
    depositLowerBound := 0, depositUpperBound := 100, requiredMultiples := some 5 }

/-- Witness catalogue. -/
def wCat : List InvestmentOption := [wOptA, wOptM]

/-- Identifier of `wOptA`. -/
def wIdA : String × ℚ × ℚ := ("BankA_FD A", 0, 100)

/-- Identifier of `wOptM`. -/
def wIdM : String × ℚ × ℚ := ("BankB_FD B", 0, 100)

/-- Witness solved amounts: 20 into `wOptA`, 10 into `wOptM`. -/
def wx : String × ℚ × ℚ → ℚ := fun i => if i = wIdA then 20 else if i = wIdM then 10 else 0

/-- Witness selection indicators. -/
def ws : String × ℚ × ℚ → Bool := fun i => i == wIdA || i == wIdM

/-- A solver stub returning the witness assignment. -/
def wSolver : List InvestmentOption → ℚ → ℕ →
    Option ((String × ℚ × ℚ → ℚ) × (String × ℚ × ℚ → Bool)) :=
  fun _ _ _ => some (wx, ws)

/-- The record the extraction loop emits for `wOptA` under `wx`. -/
def wRec : AllocationRecord :=
  { provider := "BankA", product := "FD A", allocatedAmount := 20, rate := 10,
    tenure := 12, depositLowerBound := 0, depositUpperBound := 100 }

/-- Identifier-collision catalogue, row 1: provider `A_B`, product `C`. -/
def cOptPQ : InvestmentOption :=
  { provider := "A_B", product := "C", tenure := 12, rate := 10,
    depositLowerBound := 0, depositUpperBound := 100, requiredMultiples := none }

/-- Identifier-collision catalogue, row 2: provider `A`, product `B_C` —
a different provider-product pair whose composite f-string
`A_B_C_0_100` coincides with row 1's. -/
def cOptQR : InvestmentOption :=
  { provider := "A", product := "B_C", tenure := 12, rate := 10,
    depositLowerBound := 0, depositUpperBound := 100, requiredMultiples := none }

/-- Identifier-collision catalogue. -/
def cCat : List InvestmentOption := [cOptPQ, cOptQR]

/-- The single identifier both rows of `cCat` share. -/
def cId : String × ℚ × ℚ := ("A_B_C", 0, 100)

/-- Solved amount for `cCat`: the full budget on the shared variable. -/
def cx : String × ℚ × ℚ → ℚ := fun i => if i = cId then 100 else 0

/-- Selection indicators for `cCat`. -/
def cs : String × ℚ × ℚ → Bool := fun i => i == cId

/-- Duplicate-row catalogue row: the same bracket listed twice. -/
def dOpt : InvestmentOption :=
  { provider := "P", product := "Q", tenure := 12, rate := 10,
    depositLowerBound := 0, depositUpperBound := 100, requiredMultiples := none }

/-- Duplicate-row catalogue: two identical rows. -/
def dCat : List InvestmentOption := [dOpt, dOpt]

/-- The all-zero solved amounts. -/
def zx : String × ℚ × ℚ → ℚ := fun _ => 0

/-- The all-clear selection indicators. -/
def zs : String × ℚ × ℚ → Bool := fun _ => false

/-- Monotonicity catalogue, row 1 (rate 1000% p.a., so 10 per dollar). -/
def eOptA : InvestmentOption :=
  { provider := "P1", product := "Q1", tenure := 12, rate := 1000,
    depositLowerBound := 0, depositUpperBound := 100, requiredMultiples := none }

/-- Monotonicity catalogue, row 2 (same rate, different pair). -/
def eOptB : InvestmentOption :=
  { provider := "P2", product := "Q2", tenure := 12, rate := 1000,
    depositLowerBound := 0, depositUpperBound := 100, requiredMultiples := none }

/-- Monotonicity catalogue. -/
def eCat : List InvestmentOption := [eOptA, eOptB]

/-- Identifier of `eOptA`. -/
def eIdA : String × ℚ × ℚ := ("P1_Q1", 0, 100)

/-- Identifier of `eOptB`. -/
def eIdB : String × ℚ × ℚ := ("P2_Q2", 0, 100)

/-- A solved assignment putting everything into `eOptA`. -/
def ex₁ (a : ℚ) : String × ℚ × ℚ → ℚ := fun i => if i = eIdA then a else 0

/-- Selection indicators selecting only `eOptA`. -/
def es₁ : String × ℚ × ℚ → Bool := fun i => i == eIdA

/-- A solved assignment leaving exactly the reporting threshold `1e-6`
in `eOptB` and the rest in `eOptA`. -/
def ex₂ : String × ℚ × ℚ → ℚ :=
  fun i => if i = eIdA then 4992 / 10000000 else if i = eIdB then 1 / 1000000 else 0

/-- Selection indicators selecting both rows of `eCat`. -/
def es₂ : String × ℚ × ℚ → Bool := fun i => i == eIdA || i == eIdB

/-! ## Theorems -/

/-- At a 12-month tenure the exponent is `1`, so the compounding formula
collapses to simple interest.  Used to evaluate concrete instances. -/
theorem calculate_dollar_return_twelve (a r : ℝ) :
    calculate_dollar_return a r 12 = a * (r / 100) := by
  unfold calculate_dollar_return
  norm_num

/-- C4: formula, nonnegativity on valid inputs, and the two zero cases. -/
theorem dollar_return_spec (investment rate : ℝ) (tenure : ℕ)
    (hi : 0 ≤ investment) (hr : 0 ≤ rate) (ht : 0 < tenure) :
    calculate_dollar_return investment rate tenure
        = investment * ((1 + rate / 100) ^ ((tenure : ℝ) / 12) - 1)
      ∧ 0 ≤ calculate_dollar_return investment rate tenure
      ∧ calculate_dollar_return 0 rate tenure = 0
      ∧ calculate_dollar_return investment 0 tenure = 0 := by
  refine ⟨rfl, ?_, by simp [calculate_dollar_return], by simp [calculate_dollar_return]⟩
  have hbase : (1 : ℝ) ≤ 1 + rate / 100 := by linarith
  have hexp : (0 : ℝ) ≤ (tenure : ℝ) / 12 := by positivity
  have h1 : (1 : ℝ) ≤ (1 + rate / 100) ^ ((tenure : ℝ) / 12) :=
    Real.one_le_rpow hbase hexp
  unfold calculate_dollar_return
  have : (0 : ℝ) ≤ (1 + rate / 100) ^ ((tenure : ℝ) / 12) - 1 := by linarith
  exact mul_nonneg hi this

/-- C4 witness: the preconditions and the conclusion at `(5000, 1.5, 6)`. -/
theorem dollar_return_spec_witness :
    (0 : ℝ) ≤ 5000 ∧ (0 : ℝ) ≤ 1.5 ∧ 0 < 6
      ∧ (calculate_dollar_return 5000 1.5 6
            = 5000 * ((1 + 1.5 / 100) ^ (((6 : ℕ) : ℝ) / 12) - 1)
          ∧ 0 ≤ calculate_dollar_return 5000 1.5 6
          ∧ calculate_dollar_return 0 1.5 6 = 0
          ∧ calculate_dollar_return 5000 0 6 = 0) := by
  refine ⟨by norm_num, by norm_num, by norm_num, ?_⟩
  have h := dollar_return_spec 5000 1.5 6 (by norm_num) (by norm_num) (by norm_num)
  exact ⟨by rw [h.1], h.2.1, h.2.2.1, h.2.2.2⟩

/-- C5 (code bug evidence): the source performs no validation, so a
negative investment flows straight through the formula instead of
raising an error; at `(-1000, 1.2, 12)` the code returns `-12`. -/
theorem dollar_return_no_validation :
    calculate_dollar_return (-1000) 1.2 12 = -12 := by
  rw [calculate_dollar_return_twelve]
  norm_num

/-- C6: `calculate_per_annum_rate` inverts `calculate_dollar_return`
exactly (hence within any floating tolerance). -/
theorem per_annum_rate_inverts_dollar_return (investment rate : ℝ) (tenure : ℕ)
    (hi : 0 < investment) (hr : 0 ≤ rate) (ht : 0 < tenure) :
    calculate_per_annum_rate
        (calculate_dollar_return investment rate tenure / investment * 100) tenure
      = rate := by
  have hbase : (0 : ℝ) ≤ 1 + rate / 100 := by linarith
  have htR : ((tenure : ℝ)) ≠ 0 := Nat.cast_ne_zero.mpr ht.ne'
  have hinv : investment ≠ 0 := hi.ne'
  unfold calculate_per_annum_rate calculate_dollar_return
  have hdiv :
      investment * ((1 + rate / 100) ^ ((tenure : ℝ) / 12) - 1) / investment * 100 / 100 + 1
        = (1 + rate / 100) ^ ((tenure : ℝ) / 12) := by
    field_simp
  rw [hdiv, ← Real.rpow_mul hbase]
  have hexp : (tenure : ℝ) / 12 * (12 / (tenure : ℝ)) = 1 := by
    field_simp
  rw [hexp, Real.rpow_one]
  ring

/-- C6 witness: the preconditions and the round trip at `(2, 5, 6)`. -/
theorem per_annum_rate_inverts_dollar_return_witness :
    (0 : ℝ) < 2 ∧ (0 : ℝ) ≤ 5 ∧ 0 < 6
      ∧ calculate_per_annum_rate (calculate_dollar_return 2 5 6 / 2 * 100) 6 = 5 :=
  ⟨by norm_num, by norm_num, by norm_num,
    per_annum_rate_inverts_dollar_return 2 5 6 (by norm_num) (by norm_num) (by norm_num)⟩

/-! ## List helper lemmas -/

/-- Dropping rows from a sum of nonnegative summands can only shrink it. -/
theorem sum_map_filter_le {α : Type} (l : List α) (p : α → Bool) (f : α → ℚ)
    (h : ∀ a ∈ l, 0 ≤ f a) :
    ((l.filter p).map f).sum ≤ (l.map f).sum := by
  induction l with
  | nil => simp
  | cons a t ih =>
    have ht := ih (fun b hb => h b (List.mem_cons_of_mem a hb))
    have ha := h a (List.mem_cons_self a t)
    cases hpa : p a <;> simp [List.filter_cons, hpa] <;> linarith

/-- Each of the `countP p l` rows satisfying `p` contributes at least `c`
to a sum of nonnegative summands. -/
theorem mul_countP_le_sum {α : Type} (l : List α) (p : α → Bool) (f : α → ℚ)
    (c : ℚ) (hc : 0 ≤ c) (hf : ∀ a ∈ l, 0 ≤ f a)
    (hcf : ∀ a ∈ l, p a = true → c ≤ f a) :
    c * (l.countP p : ℚ) ≤ (l.map f).sum := by
  induction l with
  | nil => simp
  | cons a t ih =>
    have ht := ih (fun b hb => hf b (List.mem_cons_of_mem a hb))
      (fun b hb hpb => hcf b (List.mem_cons_of_mem a hb) hpb)
    have ha := hf a (List.mem_cons_self a t)
    rw [List.countP_cons]
    cases hpa : p a
    · simp only [hpa, List.map_cons, List.sum_cons]
      push_cast
      nlinarith
    · have hca := hcf a (List.mem_cons_self a t) hpa
      simp only [hpa, List.map_cons, List.sum_cons]
      push_cast
      nlinarith

/-! ## Structural lemmas about the embedded optimizer -/

/-- A cleared binary variable contributes `0`. -/
theorem selVal_false : selVal false = 0 := rfl

/-- A set binary variable contributes `1`. -/
theorem selVal_true : selVal true = 1 := rfl

/-- Binary variables are nonnegative. -/
theorem selVal_nonneg (b : Bool) : 0 ≤ selVal b := by
  cases b <;> norm_num [selVal]

/-- Every row's identifier is a key of the variable dictionaries. -/
theorem investmentId_mem_ids {el : List InvestmentOption} {r : InvestmentOption}
    (hr : r ∈ el) : investmentId r ∈ investmentIds el :=
  List.mem_dedup.mpr (List.mem_map_of_mem investmentId hr)

/-- Every row's provider-product pair receives a group constraint. -/
theorem pair_mem_providerProducts {el : List InvestmentOption} {r : InvestmentOption}
    (hr : r ∈ el) : (r.provider, r.product) ∈ providerProducts el :=
  List.mem_dedup.mpr (List.mem_map_of_mem _ hr)

/-- Every row belongs to its own provider-product group. -/
theorem mem_groupRows_self {el : List InvestmentOption} {r : InvestmentOption}
    (hr : r ∈ el) : r ∈ groupRows el (r.provider, r.product) := by
  unfold groupRows
  refine List.mem_filter.mpr ⟨hr, ?_⟩
  simp

/-- The bounds looked up from the first row carrying an identifier agree
with the bounds recorded inside the identifier itself. -/
theorem idBounds_of_mem {el : List InvestmentOption} {r : InvestmentOption}
    (hr : r ∈ el) :
    idLower el (investmentId r) = r.depositLowerBound
      ∧ idUpper el (investmentId r) = r.depositUpperBound := by
  unfold idLower idUpper firstRowWithId
  rcases hfind : el.find? (fun o => investmentId o == investmentId r) with _ | r₀
  · rw [List.find?_eq_none] at hfind
    exact absurd (by simp : (investmentId r == investmentId r) = true) (hfind r hr)
  · have heq : investmentId r₀ = investmentId r := by
      have := List.find?_some hfind
      exact beq_iff_eq.mp this
    unfold investmentId at heq
    have h₂ := congrArg (fun z => z.2.1) heq
    have h₃ := congrArg (fun z => z.2.2) heq
    simp only at h₂ h₃
    simp [h₂, h₃]

/-- The per-row bound-linkage constraints, with the row's own bounds. -/
theorem feasible_row_bounds {el : List InvestmentOption} {I : ℚ}
    {x : String × ℚ × ℚ → ℚ} {s : String × ℚ × ℚ → Bool}
    (hF : Feasible el I x s) {r : InvestmentOption} (hr : r ∈ el) :
    x (investmentId r) ≤ r.depositUpperBound * selVal (s (investmentId r))
      ∧ r.depositLowerBound * selVal (s (investmentId r)) ≤ x (investmentId r) := by
  have hpp := pair_mem_providerProducts hr
  have hg := mem_groupRows_self hr
  have hub := hF.upperLink _ hpp r hg
  have hlb := hF.lowerLink _ hpp r hg
  rw [(idBounds_of_mem hr).2] at hub
  rw [(idBounds_of_mem hr).1] at hlb
  exact ⟨hub, hlb⟩

/-- An unselected identifier's amount is forced to zero. -/
theorem x_eq_zero_of_not_selected {el : List InvestmentOption} {I : ℚ}
    {x : String × ℚ × ℚ → ℚ} {s : String × ℚ × ℚ → Bool}
    (hF : Feasible el I x s) {r : InvestmentOption} (hr : r ∈ el)
    (hs : s (investmentId r) = false) : x (investmentId r) = 0 := by
  have hub := (feasible_row_bounds hF hr).1
  rw [hs, selVal_false, mul_zero] at hub
  exact le_antisymm hub (hF.nonneg _ (investmentId_mem_ids hr))

/-- A reported row's selection indicator is necessarily set. -/
theorem selected_of_allocated {el : List InvestmentOption} {I : ℚ}
    {x : String × ℚ × ℚ → ℚ} {s : String × ℚ × ℚ → Bool}
    (hF : Feasible el I x s) {r : InvestmentOption} (hr : r ∈ allocatedRows el x) :
    s (investmentId r) = true := by
  rw [allocatedRows, List.mem_filter] at hr
  obtain ⟨hrel, hamt⟩ := hr
  have hamt' : tol < x (investmentId r) := of_decide_eq_true hamt
  cases hs : s (investmentId r) with
  | true => rfl
  | false =>
    have := x_eq_zero_of_not_selected hF hrel hs
    rw [this] at hamt'
    exact absurd hamt' (by norm_num [tol])

/-! ## General optimizer theorems -/

/-- C1 (amended): when all eligible rows carry pairwise-distinct
identifiers, the unrounded `total_allocated` never exceeds the budget. -/
theorem total_allocated_within_budget (el : List InvestmentOption) (I : ℚ)
    (x : String × ℚ × ℚ → ℚ) (s : String × ℚ × ℚ → Bool)
    (hN : (el.map investmentId).Nodup) (hF : Feasible el I x s) :
    totalAllocated el x ≤ I := by
  have h₁ : totalAllocated el x ≤ (el.map (fun r => x (investmentId r))).sum := by
    unfold totalAllocated allocatedRows
    exact sum_map_filter_le el _ _ (fun r hr => hF.nonneg _ (investmentId_mem_ids hr))
  have h₂ : ((investmentIds el).map x).sum = (el.map (fun r => x (investmentId r))).sum := by
    unfold investmentIds
    rw [List.dedup_eq_self.mpr hN, List.map_map]
    rfl
  have h₃ := hF.budget
  rw [h₂] at h₃
  exact h₁.trans h₃

/-- C2: no two reported allocation records share a provider-product pair. -/
theorem allocation_records_pair_unique (el : List InvestmentOption) (I : ℚ)
    (t : ℕ) (x : String × ℚ × ℚ → ℚ) (s : String × ℚ × ℚ → Bool)
    (hF : Feasible el I x s) :
    (allocationRecords el t x).Pairwise
      (fun a b => ¬(a.provider = b.provider ∧ a.product = b.product)) := by
  unfold allocationRecords
  rw [List.pairwise_map, List.pairwise_iff_forall_sublist]
  intro a b hsub hcon
  obtain ⟨hp, hq⟩ := hcon
  simp only at hp hq
  have ha : a ∈ allocatedRows el x := hsub.subset (by simp)
  have hb : b ∈ allocatedRows el x := hsub.subset (by simp)
  have haEl : a ∈ el := (List.mem_filter.mp ha).1
  have hpp : (a.provider, a.product) ∈ providerProducts el :=
    pair_mem_providerProducts haEl
  have hgroup := hF.groupExclusive (a.provider, a.product) hpp
  have hcount2 : 2 ≤ (allocatedRows el x).countP
      (fun r => r.provider == a.provider && r.product == a.product) := by
    have h2 : ([a, b].countP
        (fun r => r.provider == a.provider && r.product == a.product)) = 2 := by
      simp [List.countP_cons, hp, hq]
    calc (2 : ℕ)
        = [a, b].countP (fun r => r.provider == a.provider && r.product == a.product) :=
          h2.symm
      _ ≤ _ := hsub.countP_le _
  have hswap :
      (allocatedRows el x).countP
          (fun r => r.provider == a.provider && r.product == a.product)
        = (groupRows el (a.provider, a.product)).countP
            (fun r => decide (tol < x (investmentId r))) := by
    unfold allocatedRows groupRows
    rw [List.countP_filter, List.countP_filter]
    exact congrArg (fun f => el.countP f)
      (funext fun r => Bool.and_comm _ _)
  rw [hswap] at hcount2
  have hlb := mul_countP_le_sum (groupRows el (a.provider, a.product))
      (fun r => decide (tol < x (investmentId r)))
      (fun r => selVal (s (investmentId r))) 1 (by norm_num)
      (fun r _ => selVal_nonneg _)
      (fun r hrg hpr => by
        show (1 : ℚ) ≤ selVal (s (investmentId r))
        have hrEl : r ∈ el := (List.mem_filter.mp hrg).1
        have hrAlloc : r ∈ allocatedRows el x :=
          List.mem_filter.mpr ⟨hrEl, hpr⟩
        rw [selected_of_allocated hF hrAlloc, selVal_true])
  have hcast : (2 : ℚ) ≤ ((groupRows el (a.provider, a.product)).countP
      (fun r => decide (tol < x (investmentId r))) : ℚ) := by
    exact_mod_cast hcount2
  linarith

/-- C8: every reported row whose option declares a positive required
multiple `m` received an amount that is an exact nonnegative integer
multiple of `m`. -/
theorem allocated_amount_multiple (el : List InvestmentOption) (I : ℚ)
    (x : String × ℚ × ℚ → ℚ) (s : String × ℚ × ℚ → Bool)
    (hF : Feasible el I x s) (r : InvestmentOption) (hr : r ∈ allocatedRows el x)
    (m : ℚ) (hm : r.requiredMultiples = some m) (hm0 : 0 < m) :
    ∃ k : ℕ, x (investmentId r) = (k : ℚ) * m :=
  hF.multiples r (List.mem_filter.mp hr).1 m hm hm0

/-- C9: every reported row's solved amount lies inside the inclusive
deposit range of its originating option. -/
theorem allocated_amount_within_bounds (el : List InvestmentOption) (I : ℚ)
    (x : String × ℚ × ℚ → ℚ) (s : String × ℚ × ℚ → Bool)
    (hF : Feasible el I x s) (r : InvestmentOption) (hr : r ∈ allocatedRows el x) :
    r.depositLowerBound ≤ x (investmentId r)
      ∧ x (investmentId r) ≤ r.depositUpperBound := by
  have hrEl : r ∈ el := (List.mem_filter.mp hr).1
  have hsel := selected_of_allocated hF hr
  have hbounds := feasible_row_bounds hF hrEl
  simp only [hsel, selVal_true, mul_one] at hbounds
  exact ⟨hbounds.2, hbounds.1⟩

/-- C7 (amended): enlarging the budget with catalogue and tenure fixed
never decreases the solver's optimal objective value (the pre-threshold,
pre-rounding total dollar return). -/
theorem optimum_monotone_in_budget (el : List InvestmentOption) (t : ℕ)
    (I₁ I₂ : ℚ) (x₁ x₂ : String × ℚ × ℚ → ℚ) (s₁ s₂ : String × ℚ × ℚ → Bool)
    (hI : I₁ ≤ I₂) (h₁ : IsOptimal el I₁ t x₁ s₁) (h₂ : IsOptimal el I₂ t x₂ s₂) :
    objectiveValue el t x₁ ≤ objectiveValue el t x₂ := by
  refine h₂.2 x₁ s₁ ?_
  obtain ⟨hne, hb, hg, hu, hl, hm⟩ := h₁.1
  exact ⟨hne, hb.trans hI, hg, hu, hl, hm⟩

/-- C10 (amended): when a provider-product-bounds combination occurs on
two or more rows, the doubled selection term in that pair's exclusivity
constraint forces the shared variable to zero: duplicated brackets can
never carry a positive allocation. -/
theorem duplicated_rows_forced_zero (el : List InvestmentOption) (I : ℚ)
    (x : String × ℚ × ℚ → ℚ) (s : String × ℚ × ℚ → Bool)
    (hF : Feasible el I x s) (p q : String) (lo hi : ℚ)
    (hdup : 2 ≤ el.countP (fun r => r.provider == p && r.product == q
        && r.depositLowerBound == lo && r.depositUpperBound == hi)) :
    x (p ++ "_" ++ q, lo, hi) = 0 := by
  have hpos : 0 < el.countP (fun r => r.provider == p && r.product == q
      && r.depositLowerBound == lo && r.depositUpperBound == hi) :=
    lt_of_lt_of_le (by norm_num) hdup
  obtain ⟨r₀, hr₀, hpr₀⟩ := List.countP_pos_iff.mp hpos
  simp only [Bool.and_eq_true, beq_iff_eq] at hpr₀
  obtain ⟨⟨⟨hp₀, hq₀⟩, hlo₀⟩, hhi₀⟩ := hpr₀
  have hid : investmentId r₀ = (p ++ "_" ++ q, lo, hi) := by
    unfold investmentId
    rw [hp₀, hq₀, hlo₀, hhi₀]
  have hpp : (p, q) ∈ providerProducts el := by
    have := pair_mem_providerProducts hr₀
    rwa [hp₀, hq₀] at this
  have hgroup := hF.groupExclusive (p, q) hpp
  have hswap : el.countP (fun r => r.provider == p && r.product == q
        && r.depositLowerBound == lo && r.depositUpperBound == hi)
      = (groupRows el (p, q)).countP
          (fun r => r.provider == p && r.product == q
            && r.depositLowerBound == lo && r.depositUpperBound == hi) := by
    unfold groupRows
    rw [List.countP_filter]
    refine (congrArg (fun f => el.countP f) (funext fun r => ?_)).symm
    cases hb₁ : r.provider == p <;> cases hb₂ : r.product == q <;>
      cases hb₃ : r.depositLowerBound == lo <;> cases hb₄ : r.depositUpperBound == hi <;>
      simp [hb₁, hb₂, hb₃, hb₄]
  rw [hswap] at hdup
  have hlb := mul_countP_le_sum (groupRows el (p, q))
      (fun r => r.provider == p && r.product == q
        && r.depositLowerBound == lo && r.depositUpperBound == hi)
      (fun r => selVal (s (investmentId r))) (selVal (s (p ++ "_" ++ q, lo, hi)))
      (selVal_nonneg _)
      (fun r _ => selVal_nonneg _)
      (fun r _ hpr => by
        show selVal (s (p ++ "_" ++ q, lo, hi)) ≤ selVal (s (investmentId r))
        simp only [Bool.and_eq_true, beq_iff_eq] at hpr
        obtain ⟨⟨⟨hp', hq'⟩, hlo'⟩, hhi'⟩ := hpr
        have hidr : investmentId r = (p ++ "_" ++ q, lo, hi) := by
          unfold investmentId
          rw [hp', hq', hlo', hhi']
        rw [hidr])
  have hsfalse : s (p ++ "_" ++ q, lo, hi) = false := by
    by_contra hcon
    rw [Bool.not_eq_false] at hcon
    rw [hcon, selVal_true] at hlb
    have hcast : (2 : ℚ) ≤ ((groupRows el (p, q)).countP
        (fun r => r.provider == p && r.product == q
          && r.depositLowerBound == lo && r.depositUpperBound == hi) : ℚ) := by
      exact_mod_cast hdup
    linarith
  have hzero := x_eq_zero_of_not_selected hF hr₀ (by rw [hid, hsfalse])
  rwa [hid] at hzero

/-- C3: the eligibility filter retains exactly the options whose tenure
equals the target, the `NoEligibleOptions` error is raised exactly when
none remain, and every record of a returned plan originates from a
catalogue row with the target tenure (options of any other tenure never
receive an allocation). -/
theorem getOptimalAllocation_tenure_contract
    (solver : List InvestmentOption → ℚ → ℕ →
      Option ((String × ℚ × ℚ → ℚ) × (String × ℚ × ℚ → Bool)))
    (df : List InvestmentOption) (I : ℚ) (t : ℕ) :
    (∀ r : InvestmentOption, r ∈ eligibleOptions df t ↔ r ∈ df ∧ r.tenure = t)
      ∧ (getOptimalAllocation solver df I t = Except.error AllocationError.noEligibleOptions
          ↔ eligibleOptions df t = [])
      ∧ (∀ res, getOptimalAllocation solver df I t = Except.ok res →
          ∀ rec ∈ res.1, ∃ r ∈ df, r.tenure = t ∧ rec.provider = r.provider
            ∧ rec.product = r.product ∧ rec.rate = r.rate ∧ rec.tenure = t
            ∧ rec.depositLowerBound = r.depositLowerBound
            ∧ rec.depositUpperBound = r.depositUpperBound) := by
  have hmem : ∀ r : InvestmentOption, r ∈ eligibleOptions df t ↔ r ∈ df ∧ r.tenure = t := by
    intro r
    simp [eligibleOptions, List.mem_filter]
  refine ⟨hmem, ?_, ?_⟩
  · unfold getOptimalAllocation
    by_cases h : (eligibleOptions df t).isEmpty
    · simp [h, List.isEmpty_iff.mp h]
    · have hne : eligibleOptions df t ≠ [] := by
        simp only [Bool.not_eq_true] at h
        exact List.isEmpty_eq_false.mp h
      rcases hs : solver (eligibleOptions df t) I t with _ | ⟨xs, ss⟩ <;>
        simp [h, hs, hne]
  · intro res hres rec hrec
    unfold getOptimalAllocation at hres
    by_cases h : (eligibleOptions df t).isEmpty
    · simp [h] at hres
    · rcases hs : solver (eligibleOptions df t) I t with _ | ⟨xs, ss⟩
      · simp [h, hs] at hres
      · simp [h, hs] at hres
        rw [← hres] at hrec
        simp only [allocationRecords, List.mem_map] at hrec
        obtain ⟨r, hr, hrec_eq⟩ := hrec
        have hrEl : r ∈ eligibleOptions df t := (List.mem_filter.mp hr).1
        obtain ⟨hrdf, hrt⟩ := (hmem r).mp hrEl
        refine ⟨r, hrdf, hrt, ?_⟩
        rw [← hrec_eq]
        exact ⟨rfl, rfl, rfl, rfl, rfl, rfl⟩

/-! ## Concrete evaluations and witnesses -/

/-- The "allocate nothing" assignment is feasible for every catalogue and
nonnegative budget (the always-feasible baseline the spec mentions). -/
theorem zero_feasible (el : List InvestmentOption) (I : ℚ) (hI : 0 ≤ I) :
    Feasible el I zx zs := by
  refine ⟨fun i _ => le_refl 0, ?_, ?_, ?_, ?_, ?_⟩
  · have hz : ((investmentIds el).map zx).sum = 0 :=
      List.sum_eq_zero (fun q hq => by
        obtain ⟨i, _, hqi⟩ := List.mem_map.mp hq
        exact hqi.symm)
    rw [hz]
    exact hI
  · intro pp _
    have hz : ((groupRows el pp).map (fun r => selVal (zs (investmentId r)))).sum = 0 :=
      List.sum_eq_zero (fun q hq => by
        obtain ⟨r, _, hqr⟩ := List.mem_map.mp hq
        rw [← hqr]
        rfl)
    rw [hz]
    norm_num
  · intro pp _ r _
    show zx (investmentId r) ≤ idUpper el (investmentId r) * selVal (zs (investmentId r))
    rw [show zs (investmentId r) = false from rfl, selVal_false, mul_zero]
    exact le_refl 0
  · intro pp _ r _
    rw [show zs (investmentId r) = false from rfl, selVal_false, mul_zero]
    exact le_refl 0
  · intro r _ m _ _
    exact ⟨0, by simp [zx]⟩

/-- Identifier of the first witness row. -/
theorem id_wOptA : investmentId wOptA = wIdA := rfl

/-- Identifier of the second witness row. -/
theorem id_wOptM : investmentId wOptM = wIdM := rfl

/-- Witness amount on `wIdA`. -/
theorem wx_A : wx wIdA = 20 := by
  unfold wx
  rw [if_pos rfl]

/-- Witness amount on `wIdM`. -/
theorem wx_M : wx wIdM = 10 := by
  unfold wx
  rw [if_neg (by decide), if_pos rfl]

/-- The witness assignment satisfies every solver constraint. -/
theorem wFeasible : Feasible wCat 100 wx ws := by
  have hids : investmentIds wCat = [wIdA, wIdM] := by decide
  have hpps : providerProducts wCat = [("BankA", "FD A"), ("BankB", "FD B")] := by decide
  have hgA : groupRows wCat ("BankA", "FD A") = [wOptA] := by decide
  have hgB : groupRows wCat ("BankB", "FD B") = [wOptM] := by decide
  refine ⟨?_, ?_, ?_, ?_, ?_, ?_⟩
  · intro i hi
    rw [hids] at hi
    fin_cases hi
    · rw [wx_A]; norm_num
    · rw [wx_M]; norm_num
  · rw [hids]
    simp only [List.map_cons, List.map_nil, List.sum_cons, List.sum_nil, wx_A, wx_M]
    norm_num
  · intro pp hpp
    rw [hpps] at hpp
    fin_cases hpp
    · rw [hgA]
      simp only [List.map_cons, List.map_nil, List.sum_cons, List.sum_nil, id_wOptA,
        show ws wIdA = true from by decide, selVal_true]
      norm_num
    · rw [hgB]
      simp only [List.map_cons, List.map_nil, List.sum_cons, List.sum_nil, id_wOptM,
        show ws wIdM = true from by decide, selVal_true]
      norm_num
  · intro pp hpp r hr
    rw [hpps] at hpp
    fin_cases hpp
    · rw [hgA] at hr
      fin_cases hr
      rw [id_wOptA, wx_A, show ws wIdA = true from by decide, selVal_true,
        show idUpper wCat wIdA = 100 from by decide]
      norm_num
    · rw [hgB] at hr
      fin_cases hr
      rw [id_wOptM, wx_M, show ws wIdM = true from by decide, selVal_true,
        show idUpper wCat wIdM = 100 from by decide]
      norm_num
  · intro pp hpp r hr
    rw [hpps] at hpp
    fin_cases hpp
    · rw [hgA] at hr
      fin_cases hr
      rw [id_wOptA, wx_A, show ws wIdA = true from by decide, selVal_true,
        show idLower wCat wIdA = 0 from by decide]
      norm_num
    · rw [hgB] at hr
      fin_cases hr
      rw [id_wOptM, wx_M, show ws wIdM = true from by decide, selVal_true,
        show idLower wCat wIdM = 0 from by decide]
      norm_num
  · intro r hr m hm hm0
    fin_cases hr
    · simp [wOptA] at hm
    · simp only [wOptM, Option.some.injEq] at hm
      exact ⟨2, by rw [id_wOptM, wx_M, ← hm]; norm_num⟩

/-- The two witness rows pass the reporting threshold. -/
theorem wAllocated : allocatedRows wCat wx = wCat := by
  unfold allocatedRows wCat
  rw [List.filter_cons, List.filter_cons]
  rw [if_pos (by rw [id_wOptA, wx_A]; norm_num [tol]),
    if_pos (by rw [id_wOptM, wx_M]; norm_num [tol])]
  rfl

/-- C1 witness: on a duplicate-free catalogue the budget bound holds at
the witness assignment. -/
theorem total_allocated_within_budget_witness :
    (wCat.map investmentId).Nodup ∧ Feasible wCat 100 wx ws
      ∧ totalAllocated wCat wx ≤ 100 :=
  ⟨by decide, wFeasible,
    total_allocated_within_budget wCat 100 wx ws (by decide) wFeasible⟩

/-- C2 witness: the records of the witness plan use distinct pairs. -/
theorem allocation_records_pair_unique_witness :
    Feasible wCat 100 wx ws
      ∧ (allocationRecords wCat 12 wx).Pairwise
          (fun a b => ¬(a.provider = b.provider ∧ a.product = b.product)) :=
  ⟨wFeasible, allocation_records_pair_unique wCat 100 12 wx ws wFeasible⟩

/-- C8 witness: the reported multiple-bearing row received `2 × 5`. -/
theorem allocated_amount_multiple_witness :
    Feasible wCat 100 wx ws ∧ wOptM ∈ allocatedRows wCat wx
      ∧ wOptM.requiredMultiples = some 5 ∧ (0 : ℚ) < 5
      ∧ ∃ k : ℕ, wx (investmentId wOptM) = (k : ℚ) * 5 := by
  have hmem : wOptM ∈ allocatedRows wCat wx := by
    rw [wAllocated]
    decide
  exact ⟨wFeasible, hmem, rfl, by norm_num,
    allocated_amount_multiple wCat 100 wx ws wFeasible wOptM hmem 5 rfl (by norm_num)⟩

/-- C9 witness: the reported plain row's amount is inside its bounds. -/
theorem allocated_amount_within_bounds_witness :
    Feasible wCat 100 wx ws ∧ wOptA ∈ allocatedRows wCat wx
      ∧ wOptA.depositLowerBound ≤ wx (investmentId wOptA)
      ∧ wx (investmentId wOptA) ≤ wOptA.depositUpperBound := by
  have hmem : wOptA ∈ allocatedRows wCat wx := by
    rw [wAllocated]
    decide
  exact ⟨wFeasible, hmem,
    allocated_amount_within_bounds wCat 100 wx ws wFeasible wOptA hmem⟩

/-- C10 counterexample: on a catalogue listing the very same bracket
twice, no feasible assignment ever puts a reportable amount on the
shared variable — the duplicated rows can never be double-counted into
the aggregates, because the doubled selection term in the exclusivity
constraint forces the shared allocation to zero. -/
theorem duplicate_rows_never_double_counted :
    ¬ ∃ x : String × ℚ × ℚ → ℚ, ∃ s : String × ℚ × ℚ → Bool,
      Feasible dCat 100 x s ∧ tol < x ("P_Q", 0, 100) := by
  rintro ⟨x, s, hF, hx⟩
  have hgroup := hF.groupExclusive ("P", "Q") (by decide)
  have hgr : groupRows dCat ("P", "Q") = [dOpt, dOpt] := by decide
  rw [hgr] at hgroup
  simp only [List.map_cons, List.map_nil, List.sum_cons, List.sum_nil, add_zero] at hgroup
  have hid : investmentId dOpt = ("P_Q", 0, 100) := rfl
  rw [hid] at hgroup
  cases hsv : s ("P_Q", 0, 100)
  · have hmem : dOpt ∈ groupRows dCat ("P", "Q") := by
      rw [hgr]
      exact List.mem_cons_self dOpt [dOpt]
    have hub := hF.upperLink ("P", "Q") (by decide) dOpt hmem
    rw [hid, hsv, selVal_false, mul_zero] at hub
    exact absurd (hx.trans_le hub) (by norm_num [tol])
  · rw [hsv, selVal_true] at hgroup
    norm_num at hgroup

/-- C10 witness (for the amended statement): the duplicate catalogue with
the all-zero feasible assignment. -/
theorem duplicated_rows_forced_zero_witness :
    Feasible dCat 100 zx zs
      ∧ 2 ≤ dCat.countP (fun r => r.provider == "P" && r.product == "Q"
          && r.depositLowerBound == 0 && r.depositUpperBound == 100)
      ∧ zx ("P" ++ "_" ++ "Q", 0, 100) = 0 :=
  ⟨zero_feasible dCat 100 (by norm_num), by decide,
    duplicated_rows_forced_zero dCat 100 zx zs (zero_feasible dCat 100 (by norm_num))
      "P" "Q" 0 100 (by decide)⟩

/-- Per-dollar objective coefficient at a 12-month tenure. -/
theorem perDollarReturn_twelve (rate : ℚ) :
    perDollarReturn rate 12 = (rate : ℝ) / 100 := by
  unfold perDollarReturn
  rw [calculate_dollar_return_twelve]
  ring

/-- Solved amount of the collision assignment on the shared identifier. -/
theorem cx_c : cx cId = 100 := by
  unfold cx
  rw [if_pos rfl]

/-- Objective of the collision catalogue: the shared variable's
coefficient accumulates across the two rows. -/
theorem cCat_objective (x : String × ℚ × ℚ → ℚ) :
    objectiveValue cCat 12 x = (x cId : ℝ) * (1 / 5) := by
  unfold objectiveValue cCat
  simp only [List.map_cons, List.map_nil, List.sum_cons, List.sum_nil, add_zero]
  rw [show investmentId cOptPQ = cId from rfl, show investmentId cOptQR = cId from rfl,
    show cOptPQ.rate = 10 from rfl, show cOptQR.rate = 10 from rfl, perDollarReturn_twelve]
  push_cast
  ring

/-- The collision assignment satisfies every solver constraint. -/
theorem cFeasible : Feasible cCat 100 cx cs := by
  have hids : investmentIds cCat = [cId] := by decide
  have hpps : providerProducts cCat = [("A_B", "C"), ("A", "B_C")] := by decide
  have hg1 : groupRows cCat ("A_B", "C") = [cOptPQ] := by decide
  have hg2 : groupRows cCat ("A", "B_C") = [cOptQR] := by decide
  refine ⟨?_, ?_, ?_, ?_, ?_, ?_⟩
  · intro i hi
    rw [hids] at hi
    fin_cases hi
    rw [cx_c]
    norm_num
  · rw [hids]
    simp only [List.map_cons, List.map_nil, List.sum_cons, List.sum_nil, cx_c]
    norm_num
  · intro pp hpp
    rw [hpps] at hpp
    fin_cases hpp
    · rw [hg1]
      simp only [List.map_cons, List.map_nil, List.sum_cons, List.sum_nil,
        show investmentId cOptPQ = cId from rfl, show cs cId = true from by decide, selVal_true]
      norm_num
    · rw [hg2]
      simp only [List.map_cons, List.map_nil, List.sum_cons, List.sum_nil,
        show investmentId cOptQR = cId from rfl, show cs cId = true from by decide, selVal_true]
      norm_num
  · intro pp hpp r hr
    rw [hpps] at hpp
    fin_cases hpp
    · rw [hg1] at hr
      fin_cases hr
      rw [show investmentId cOptPQ = cId from rfl, cx_c,
        show cs cId = true from by decide, selVal_true,
        show idUpper cCat cId = 100 from by decide]
      norm_num
    · rw [hg2] at hr
      fin_cases hr
      rw [show investmentId cOptQR = cId from rfl, cx_c,
        show cs cId = true from by decide, selVal_true,
        show idUpper cCat cId = 100 from by decide]
      norm_num
  · intro pp hpp r hr
    rw [hpps] at hpp
    fin_cases hpp
    · rw [hg1] at hr
      fin_cases hr
      rw [show investmentId cOptPQ = cId from rfl, cx_c,
        show cs cId = true from by decide, selVal_true,
        show idLower cCat cId = 0 from by decide]
      norm_num
    · rw [hg2] at hr
      fin_cases hr
      rw [show investmentId cOptQR = cId from rfl, cx_c,
        show cs cId = true from by decide, selVal_true,
        show idLower cCat cId = 0 from by decide]
      norm_num
  · intro r hr m hm hm0
    fin_cases hr <;> simp [cOptPQ, cOptQR] at hm

/-- The collision assignment is optimal: the budget constraint counts the
shared variable once, so `x cId = 100` maximizes the accumulated
objective `x cId * (1/5)`. -/
theorem cOptimal : IsOptimal cCat 100 12 cx cs := by
  refine ⟨cFeasible, ?_⟩
  intro x₂ s₂ hF
  rw [cCat_objective, cCat_objective, cx_c]
  have hb := hF.budget
  rw [show investmentIds cCat = [cId] from by decide] at hb
  simp only [List.map_cons, List.map_nil, List.sum_cons, List.sum_nil, add_zero] at hb
  have hbR : (x₂ cId : ℝ) ≤ 100 := by exact_mod_cast hb
  push_cast
  linarith

/-- C1 counterexample: with providers/products containing underscores,
two different provider-product pairs collide onto one composite
identifier (`A_B_C_0_100`); the budget counts the shared variable once
but the extraction loop reports it once per row, so a solved optimal
plan on budget 100 reports `total_allocated = 200`, far beyond the
claimed `total_investment + 1e-6`. -/
theorem budget_exceeded_by_id_collision :
    IsOptimal cCat 100 12 cx cs
      ∧ totalAllocated cCat cx = 200
      ∧ round2 (totalAllocated cCat cx) = 200
      ∧ ¬(round2 (totalAllocated cCat cx) ≤ 100 + tol) := by
  have hall : allocatedRows cCat cx = cCat := by
    unfold allocatedRows cCat
    rw [List.filter_cons, List.filter_cons]
    rw [if_pos (by rw [show investmentId cOptPQ = cId from rfl, cx_c]; norm_num [tol]),
      if_pos (by rw [show investmentId cOptQR = cId from rfl, cx_c]; norm_num [tol])]
    rfl
  have htot : totalAllocated cCat cx = 200 := by
    unfold totalAllocated
    rw [hall]
    unfold cCat
    simp only [List.map_cons, List.map_nil, List.sum_cons, List.sum_nil, add_zero]
    rw [show investmentId cOptPQ = cId from rfl, show investmentId cOptQR = cId from rfl, cx_c]
    norm_num
  have hround : round2 (totalAllocated cCat cx) = 200 := by
    rw [htot]
    unfold round2
    rw [show (200 : ℚ) * 100 = ((20000 : ℤ) : ℚ) from by norm_num, round_intCast]
    norm_num
  refine ⟨cOptimal, htot, hround, ?_⟩
  rw [hround]
  norm_num [tol]

/-- Concentrated assignment at its own identifier. -/
theorem ex1_A (a : ℚ) : ex₁ a eIdA = a := by
  unfold ex₁
  rw [if_pos rfl]

/-- Concentrated assignment elsewhere. -/
theorem ex1_B (a : ℚ) : ex₁ a eIdB = 0 := by
  unfold ex₁
  rw [if_neg (by decide)]

/-- Split assignment on `eIdA`. -/
theorem ex2_A : ex₂ eIdA = 4992 / 10000000 := by
  unfold ex₂
  rw [if_pos rfl]

/-- Split assignment on `eIdB`: exactly the reporting threshold. -/
theorem ex2_B : ex₂ eIdB = 1 / 1000000 := by
  unfold ex₂
  rw [if_neg (by decide), if_pos rfl]

/-- Objective of the monotonicity catalogue. -/
theorem eCat_objective (x : String × ℚ × ℚ → ℚ) :
    objectiveValue eCat 12 x = (x eIdA : ℝ) * 10 + (x eIdB : ℝ) * 10 := by
  unfold objectiveValue eCat
  simp only [List.map_cons, List.map_nil, List.sum_cons, List.sum_nil, add_zero]
  rw [show investmentId eOptA = eIdA from rfl, show investmentId eOptB = eIdB from rfl,
    show eOptA.rate = 1000 from rfl, show eOptB.rate = 1000 from rfl, perDollarReturn_twelve]
  push_cast
  ring

/-- Any feasible assignment's objective is capped by ten times the
budget on the monotonicity catalogue. -/
theorem eCat_objective_le (I : ℚ) (x : String × ℚ × ℚ → ℚ) (s : String × ℚ × ℚ → Bool)
    (hF : Feasible eCat I x s) : objectiveValue eCat 12 x ≤ (I : ℝ) * 10 := by
  have hb := hF.budget
  rw [show investmentIds eCat = [eIdA, eIdB] from by decide] at hb
  simp only [List.map_cons, List.map_nil, List.sum_cons, List.sum_nil, add_zero] at hb
  have hbR : (x eIdA : ℝ) + (x eIdB : ℝ) ≤ I := by exact_mod_cast hb
  rw [eCat_objective]
  linarith

/-- The concentrated assignment is feasible whenever it fits the bracket. -/
theorem eFeasible₁ (a : ℚ) (h0 : 0 ≤ a) (h100 : a ≤ 100) :
    Feasible eCat a (ex₁ a) es₁ := by
  have hids : investmentIds eCat = [eIdA, eIdB] := by decide
  have hpps : providerProducts eCat = [("P1", "Q1"), ("P2", "Q2")] := by decide
  have hg1 : groupRows eCat ("P1", "Q1") = [eOptA] := by decide
  have hg2 : groupRows eCat ("P2", "Q2") = [eOptB] := by decide
  refine ⟨?_, ?_, ?_, ?_, ?_, ?_⟩
  · intro i hi
    rw [hids] at hi
    fin_cases hi
    · rw [ex1_A]; exact h0
    · rw [ex1_B]
  · rw [hids]
    simp only [List.map_cons, List.map_nil, List.sum_cons, List.sum_nil, ex1_A, ex1_B,
      add_zero]
    linarith
  · intro pp hpp
    rw [hpps] at hpp
    fin_cases hpp
    · rw [hg1]
      simp only [List.map_cons, List.map_nil, List.sum_cons, List.sum_nil,
        show investmentId eOptA = eIdA from rfl, show es₁ eIdA = true from by decide,
        selVal_true]
      norm_num
    · rw [hg2]
      simp only [List.map_cons, List.map_nil, List.sum_cons, List.sum_nil,
        show investmentId eOptB = eIdB from rfl, show es₁ eIdB = false from by decide,
        selVal_false]
      norm_num
  · intro pp hpp r hr
    rw [hpps] at hpp
    fin_cases hpp
    · rw [hg1] at hr
      fin_cases hr
      rw [show investmentId eOptA = eIdA from rfl, ex1_A,
        show es₁ eIdA = true from by decide, selVal_true,
        show idUpper eCat eIdA = 100 from by decide]
      linarith
    · rw [hg2] at hr
      fin_cases hr
      rw [show investmentId eOptB = eIdB from rfl, ex1_B,
        show es₁ eIdB = false from by decide, selVal_false,
        show idUpper eCat eIdB = 100 from by decide]
      norm_num
  · intro pp hpp r hr
    rw [hpps] at hpp
    fin_cases hpp
    · rw [hg1] at hr
      fin_cases hr
      rw [show investmentId eOptA = eIdA from rfl, ex1_A,
        show es₁ eIdA = true from by decide, selVal_true,
        show idLower eCat eIdA = 0 from by decide]
      linarith
    · rw [hg2] at hr
      fin_cases hr
      rw [show investmentId eOptB = eIdB from rfl, ex1_B,
        show es₁ eIdB = false from by decide, selVal_false,
        show idLower eCat eIdB = 0 from by decide]
      norm_num
  · intro r hr m hm hm0
    fin_cases hr <;> simp [eOptA, eOptB] at hm

/-- The concentrated assignment is optimal for its own budget. -/
theorem eOptimal₁ (a : ℚ) (h0 : 0 ≤ a) (h100 : a ≤ 100) :
    IsOptimal eCat a 12 (ex₁ a) es₁ := by
  refine ⟨eFeasible₁ a h0 h100, ?_⟩
  intro x₂ s₂ hF
  have hle := eCat_objective_le a x₂ s₂ hF
  have hobj := eCat_objective (ex₁ a)
  rw [ex1_A, ex1_B] at hobj
  rw [hobj]
  push_cast
  linarith

/-- The split assignment is feasible for budget `5002e-7`. -/
theorem eFeasible₂ : Feasible eCat (5002 / 10000000) ex₂ es₂ := by
  have hids : investmentIds eCat = [eIdA, eIdB] := by decide
  have hpps : providerProducts eCat = [("P1", "Q1"), ("P2", "Q2")] := by decide
  have hg1 : groupRows eCat ("P1", "Q1") = [eOptA] := by decide
  have hg2 : groupRows eCat ("P2", "Q2") = [eOptB] := by decide
  refine ⟨?_, ?_, ?_, ?_, ?_, ?_⟩
  · intro i hi
    rw [hids] at hi
    fin_cases hi
    · rw [ex2_A]; norm_num
    · rw [ex2_B]; norm_num
  · rw [hids]
    simp only [List.map_cons, List.map_nil, List.sum_cons, List.sum_nil, ex2_A, ex2_B,
      add_zero]
    norm_num
  · intro pp hpp
    rw [hpps] at hpp
    fin_cases hpp
    · rw [hg1]
      simp only [List.map_cons, List.map_nil, List.sum_cons, List.sum_nil,
        show investmentId eOptA = eIdA from rfl, show es₂ eIdA = true from by decide,
        selVal_true]
      norm_num
    · rw [hg2]
      simp only [List.map_cons, List.map_nil, List.sum_cons, List.sum_nil,
        show investmentId eOptB = eIdB from rfl, show es₂ eIdB = true from by decide,
        selVal_true]
      norm_num
  · intro pp hpp r hr
    rw [hpps] at hpp
    fin_cases hpp
    · rw [hg1] at hr
      fin_cases hr
      rw [show investmentId eOptA = eIdA from rfl, ex2_A,
        show es₂ eIdA = true from by decide, selVal_true,
        show idUpper eCat eIdA = 100 from by decide]
      norm_num
    · rw [hg2] at hr
      fin_cases hr
      rw [show investmentId eOptB = eIdB from rfl, ex2_B,
        show es₂ eIdB = true from by decide, selVal_true,
        show idUpper eCat eIdB = 100 from by decide]
      norm_num
  · intro pp hpp r hr
    rw [hpps] at hpp
    fin_cases hpp
    · rw [hg1] at hr
      fin_cases hr
      rw [show investmentId eOptA = eIdA from rfl, ex2_A,
        show es₂ eIdA = true from by decide, selVal_true,
        show idLower eCat eIdA = 0 from by decide]
      norm_num
    · rw [hg2] at hr
      fin_cases hr
      rw [show investmentId eOptB = eIdB from rfl, ex2_B,
        show es₂ eIdB = true from by decide, selVal_true,
        show idLower eCat eIdB = 0 from by decide]
      norm_num
  · intro r hr m hm hm0
    fin_cases hr <;> simp [eOptA, eOptB] at hm

/-- The split assignment is optimal: it exhausts the budget at the
uniform per-dollar rate. -/
theorem eOptimal₂ : IsOptimal eCat (5002 / 10000000) 12 ex₂ es₂ := by
  refine ⟨eFeasible₂, ?_⟩
  intro x₂ s₂ hF
  have hle := eCat_objective_le (5002 / 10000000) x₂ s₂ hF
  have hobj := eCat_objective ex₂
  rw [ex2_A, ex2_B] at hobj
  rw [hobj]
  push_cast
  linarith

/-- C7 witness (for the amended statement): two concentrated optima at
budgets `1/10 ≤ 1/5` with monotone objective values. -/
theorem optimum_monotone_in_budget_witness :
    (1 / 10 : ℚ) ≤ 1 / 5
      ∧ IsOptimal eCat (1 / 10) 12 (ex₁ (1 / 10)) es₁
      ∧ IsOptimal eCat (1 / 5) 12 (ex₁ (1 / 5)) es₁
      ∧ objectiveValue eCat 12 (ex₁ (1 / 10)) ≤ objectiveValue eCat 12 (ex₁ (1 / 5)) := by
  have h₁ := eOptimal₁ (1 / 10) (by norm_num) (by norm_num)
  have h₂ := eOptimal₁ (1 / 5) (by norm_num) (by norm_num)
  exact ⟨by norm_num, h₁, h₂,
    optimum_monotone_in_budget eCat 12 (1 / 10) (1 / 5) (ex₁ (1 / 10)) (ex₁ (1 / 5))
      es₁ es₁ (by norm_num) h₁ h₂⟩

/-- Only `eOptA` passes the reporting threshold under the concentrated
assignment at budget `5001e-7`. -/
theorem eAlloc₁ : allocatedRows eCat (ex₁ (5001 / 10000000)) = [eOptA] := by
  unfold allocatedRows eCat
  rw [List.filter_cons, List.filter_cons]
  rw [if_pos (by rw [show investmentId eOptA = eIdA from rfl, ex1_A]; norm_num [tol]),
    if_neg (by rw [show investmentId eOptB = eIdB from rfl, ex1_B]; norm_num [tol])]
  rfl

/-- Only `eOptA` passes the reporting threshold under the split
assignment: the `1e-6` put on `eOptB` fails the strict `> 1e-6` test. -/
theorem eAlloc₂ : allocatedRows eCat ex₂ = [eOptA] := by
  unfold allocatedRows eCat
  rw [List.filter_cons, List.filter_cons]
  rw [if_pos (by rw [show investmentId eOptA = eIdA from rfl, ex2_A]; norm_num [tol]),
    if_neg (by rw [show investmentId eOptB = eIdB from rfl, ex2_B]; norm_num [tol])]
  rfl

/-- Unrounded reported return of the concentrated assignment. -/
theorem eReturn₁ :
    totalReturn eCat 12 (ex₁ (5001 / 10000000)) = (5001 / 10000000 : ℝ) * 10 := by
  unfold totalReturn
  rw [eAlloc₁]
  simp only [List.map_cons, List.map_nil, List.sum_cons, List.sum_nil, add_zero]
  rw [show investmentId eOptA = eIdA from rfl, ex1_A, show eOptA.rate = 1000 from rfl,
    calculate_dollar_return_twelve]
  push_cast
  ring

/-- Unrounded reported return of the split assignment: the threshold
dump is simply missing from the report. -/
theorem eReturn₂ : totalReturn eCat 12 ex₂ = (4992 / 10000000 : ℝ) * 10 := by
  unfold totalReturn
  rw [eAlloc₂]
  simp only [List.map_cons, List.map_nil, List.sum_cons, List.sum_nil, add_zero]
  rw [show investmentId eOptA = eIdA from rfl, ex2_A, show eOptA.rate = 1000 from rfl,
    calculate_dollar_return_twelve]
  push_cast
  ring

/-- C7 counterexample: on the same catalogue and tenure, two solved
optimal plans at budgets `5001e-7 ≤ 5002e-7` report *decreasing*
`total_return` (`0.01` then `0.00`): the larger-budget optimum parks
exactly `1e-6` in a second bracket, which the `> 1e-6` reporting filter
drops, and cent-rounding amplifies the loss. -/
theorem reported_return_not_monotone :
    (5001 / 10000000 : ℚ) ≤ 5002 / 10000000
      ∧ IsOptimal eCat (5001 / 10000000) 12 (ex₁ (5001 / 10000000)) es₁
      ∧ IsOptimal eCat (5002 / 10000000) 12 ex₂ es₂
      ∧ (mkSummary eCat 12 (5002 / 10000000) ex₂).totalReturn
          < (mkSummary eCat 12 (5001 / 10000000) (ex₁ (5001 / 10000000))).totalReturn := by
  refine ⟨by norm_num, eOptimal₁ _ (by norm_num) (by norm_num), eOptimal₂, ?_⟩
  show round2R (totalReturn eCat 12 ex₂)
      < round2R (totalReturn eCat 12 (ex₁ (5001 / 10000000)))
  rw [eReturn₁, eReturn₂]
  unfold round2R
  rw [show ((4992 / 10000000 : ℝ) * 10) * 100 = 4992 / 10000 from by norm_num,
    show ((5001 / 10000000 : ℝ) * 10) * 100 = 5001 / 10000 from by norm_num,
    round_eq, round_eq,
    show ⌊(4992 / 10000 : ℝ) + 1 / 2⌋ = 0 from
      Int.floor_eq_iff.mpr ⟨by norm_num, by norm_num⟩,
    show ⌊(5001 / 10000 : ℝ) + 1 / 2⌋ = 1 from
      Int.floor_eq_iff.mpr ⟨by norm_num, by norm_num⟩]
  norm_num

/-- Rounding a whole-dollar amount to cents changes nothing. -/
theorem round2_twenty : round2 (20 : ℚ) = 20 := by
  unfold round2
  rw [show (20 : ℚ) * 100 = ((2000 : ℤ) : ℚ) from by norm_num, round_intCast]
  norm_num

/-- C3 witness: a concrete run returning a plan whose record stems from
a tenure-12 catalogue row. -/
theorem getOptimalAllocation_tenure_contract_witness :
    getOptimalAllocation wSolver wCat 100 12
        = Except.ok (allocationRecords (eligibleOptions wCat 12) 12 wx,
            mkSummary (eligibleOptions wCat 12) 12 100 wx)
      ∧ wRec ∈ allocationRecords (eligibleOptions wCat 12) 12 wx
      ∧ ∃ r ∈ wCat, r.tenure = 12 ∧ wRec.provider = r.provider ∧ wRec.product = r.product
        ∧ wRec.rate = r.rate ∧ wRec.tenure = 12 ∧ wRec.depositLowerBound = r.depositLowerBound
        ∧ wRec.depositUpperBound = r.depositUpperBound := by
  have hok : getOptimalAllocation wSolver wCat 100 12
      = Except.ok (allocationRecords (eligibleOptions wCat 12) 12 wx,
          mkSummary (eligibleOptions wCat 12) 12 100 wx) := rfl
  have hmem : wRec ∈ allocationRecords (eligibleOptions wCat 12) 12 wx := by
    rw [show eligibleOptions wCat 12 = wCat from rfl]
    unfold allocationRecords
    rw [wAllocated]
    unfold wCat
    simp only [List.map_cons, List.map_nil, id_wOptA, wx_A, round2_twenty]
    exact List.mem_cons_self _ _
  exact ⟨hok, hmem,
    (getOptimalAllocation_tenure_contract wSolver wCat 100 12).2.2
      (allocationRecords (eligibleOptions wCat 12) 12 wx,
        mkSummary (eligibleOptions wCat 12) 12 100 wx) hok wRec hmem⟩

end SgFixedIncome
